import Mathlib

/-!
Verification of the incremental sync engine of `tap_pagerduty/streams.py`.

The development shallowly embeds the parts of the source that the verified
properties are about:

* ISO-8601 timestamps are modelled as naturals (`Timestamp`); `dateutil`
  parsing and `datetime.isoformat` become the identity on this domain, and
  comparison of timestamps (and of their `isoformat` strings, which agree in
  order for the uniform formats the tap produces) is the order on `Nat`.
* the window-planning `while since_dtime < until_dtime` loop of the
  incremental `sync` methods (`windowPlan`),
* the bookmark comparison and `update_bookmark` of `PagerdutyStream`,
* the per-record emission loop of `NotificationsStream.sync`
  (`incrementalSync`), with the final `running_bookmark_dtime.isoformat()`
  call modelled as `Except` (it raises `AttributeError` when the running
  bookmark is still `None`),
* the pagination protocol of `PagerdutyResponse.__iter__`/`__next__`
  (`paginate`), driven by a finite list of pages standing for the successive
  network responses,
* the per-record alerts/log-entries sub-pagination of `IncidentsStream.sync`
  (`incidentRecordWrites`, `firstAlertsOffset`),
* the retry/backoff stack on `PagerdutyStream._get` (`getLoop`),
* the query-parameter validation of `PagerdutyStream.__init__`
  (`initStreamParams`),
* the on-call record handling of `OncallsStream.sync` (`oncallStep`).

External collaborators (the singer record sink, schema transformation, the
`requests` transport) are elided or abstracted exactly where the source
treats them as opaque: transformation is the identity, the sink is the list
of emitted records, the transport is a list of prescribed outcomes.
-/

/-- Timestamps: the replication-key domain.  ISO-8601 instants are modelled
as naturals; the source's `parser.parse` and `.isoformat()` are the identity
on this domain. -/
abbrev Timestamp := Nat

/-! ### Window planner

Embeds the loop shared by `IncidentsStream.sync`, `NotificationsStream.sync`
and `OncallsStream.sync` (streams.py:200-236, 340-361, 472-508):

    while since_dtime < until_dtime:
        range = { "offset": 0,
                  "since": since_dtime.isoformat(),
                  "until": min((since_dtime + request_range_limit).isoformat(),
                               until_dtime.isoformat()) }
        ...
        since_dtime += request_range_limit
-/

/-- One fuel-bounded unfolding of the window loop.  The fuel is an embedding
artifact for the `while` loop; `windowPlan` supplies `til - since` fuel,
which is enough for any positive span (each iteration advances the cursor by
`span ≥ 1`).  For `span = 0` the source loop would not terminate; every
theorem below assumes `0 < span`. -/
def windowLoop : Nat → Nat → Nat → Nat → List (Nat × Nat)
  | 0, _, _, _ => []
  | fuel + 1, since, til, span =>
    if since < til then
      (since, min (since + span) til) :: windowLoop fuel (since + span) til span
    else []

/-- The sequence of `(since, until)` windows generated by the source's
window loop for a `[since, til)` range and a maximum span. -/
def windowPlan (since til span : Nat) : List (Nat × Nat) :=
  windowLoop (til - since) since til span

/-! ### Bookmarks -/

/-- Embeds `PagerdutyStream.update_bookmark` (streams.py:111-116). -/
def update_bookmark (bookmark : Option Timestamp) (value : Timestamp) : Timestamp :=
  match bookmark with
  | none => value
  | some b => max b value

/-- The per-record emission test shared by the incremental `sync` methods
(streams.py:226, 351, 494):
`(current_bookmark_dtime is None) or (record_replication_key_dtime >= current_bookmark_dtime)`. -/
def bookmarkFilter (bookmark : Option Timestamp) (key : Timestamp) : Bool :=
  match bookmark with
  | none => true
  | some w => w ≤ key

/-! ### Incremental sync (NotificationsStream shape)

`NotificationsStream.sync` (streams.py:321-367): read the bookmark, derive
the effective `since`, loop over windows, loop over pages and records,
filter against the bookmark read at sync start, emit, advance the running
bookmark, and finally call `running_bookmark_dtime.isoformat()` and write
the bookmark.  Pagination inside a window is modelled by the window's list
of pages (`pages w`); the pagination protocol itself is verified separately
on `paginate`.  Schema transformation is an external collaborator modelled
as the identity, and `singer.write_record` as appending to the emitted
list. -/

/-- A fetched record, reduced to its parsed replication-key value and an
opaque payload distinguishing records with equal keys. -/
structure SyncRecord where
  key : Timestamp
  payload : Nat
deriving DecidableEq, Repr

/-- One iteration of the record loop of `NotificationsStream.sync`
(streams.py:348-359): filter against the bookmark read at sync start,
write the record, and advance the running bookmark. -/
def emitStep (bookmark : Option Timestamp) (st : List SyncRecord × Option Timestamp)
    (r : SyncRecord) : List SyncRecord × Option Timestamp :=
  if bookmarkFilter bookmark r.key then
    (st.1 ++ [r], some (update_bookmark st.2 r.key))
  else st

/-- Result of an incremental sync run: the records written to the sink, and
the final bookmark-write step — `Except.error ()` models the
`AttributeError` raised by `running_bookmark_dtime.isoformat()` when the
running bookmark is still `None` (streams.py:363), `Except.ok v` the value
passed to `singer.bookmarks.write_bookmark`. -/
structure SyncOutcome where
  emitted : List SyncRecord
  writeStep : Except Unit Timestamp
deriving Repr

/-- Embeds `NotificationsStream.sync` (streams.py:321-367).  `pages w` is
the list of pages (each a list of records) the paginated endpoint returns
for window `w`. -/
def incrementalSync (bookmark : Option Timestamp) (cfgSince cfgUntil span : Nat)
    (pages : Nat × Nat → List (List SyncRecord)) : SyncOutcome :=
  let sinceDt := match bookmark with
    | some b => b
    | none => cfgSince
  let st := (windowPlan sinceDt cfgUntil span).foldl
    (fun st w => (pages w).foldl (fun st page => page.foldl (emitStep bookmark) st) st)
    ([], none)
  { emitted := st.1
    writeStep := match st.2 with
      | some v => Except.ok v
      | none => Except.error () }

/-- The records fetched within some window of the run: the same traversal
`incrementalSync` performs, without filtering or emission. -/
def fetchedRecords (bookmark : Option Timestamp) (cfgSince cfgUntil span : Nat)
    (pages : Nat × Nat → List (List SyncRecord)) : List SyncRecord :=
  ((windowPlan (match bookmark with | some b => b | none => cfgSince) cfgUntil span).map
    (fun w => (pages w).flatten)).flatten

/-! ### Pagination

`PagerdutyResponse.__iter__`/`__next__` (streams.py:130-149): the first
element of the sequence is the initial response itself (no network call);
afterwards, `more = True` increments `offset` by `limit` in the shared
params dict and fetches the next page, anything else ends the sequence.
The successive network responses are prescribed by a finite list `rest`;
an exhausted list ends the sequence (the theorems' hypotheses keep to the
scenario where the last consumed page has `more` false or absent). -/

/-- One response page: its `more` flag (`none` models an absent key) and
its list of record payloads. -/
structure Page where
  more : Option Bool
  items : List Nat
deriving DecidableEq, Repr

/-- The pages yielded by iterating a `PagerdutyResponse`, each paired with
the `offset` param value at which it was fetched. -/
def paginate (limit : Nat) : Page → List Page → Nat → List (Page × Nat)
  | p, [], off => [(p, off)]
  | p, q :: qs, off =>
    (p, off) ::
      (match p.more with
       | some true => paginate limit q qs (off + limit)
       | _ => [])

/-! ### Incidents sub-resource enrichment

`IncidentsStream.sync` (streams.py:207-234): per incident record, one
mutable `substream_params` dict is created (streams.py:212-216) and used
first for the `log_entries` sub-pagination, then for the `alerts`
sub-pagination; `PagerdutyResponse.__next__` mutates the dict's `offset`
in place.  The filter/transform/`write_record` block (streams.py:226-234)
is indented inside the `alerts` page loop, so it runs once per alerts
page. -/

/-- Number of `write_record` calls made for one incident record that
carries replication-key value `key`, given the successive pages of its
`alerts` sub-pagination: one call per alerts page when the bookmark filter
passes (the filter+write block sits inside the alerts page loop,
streams.py:223-234), none otherwise. -/
def incidentRecordWrites (bookmark : Option Timestamp) (key : Timestamp)
    (aFirst : Page) (aRest : List Page) : Nat :=
  (paginate 100 aFirst aRest 0).foldl
    (fun n _ => if bookmarkFilter bookmark key then n + 1 else n) 0

/-- Offset parameter of the record's first `alerts` sub-request: the
`substream_params` dict is shared between the `log_entries` and `alerts`
sub-paginations and its `offset` is mutated in place by
`PagerdutyResponse.__next__` (streams.py:143), so the first alerts request
is issued at the offset at which the last `log_entries` page was fetched
(the sub-streams' limit is fixed at 100, streams.py:213). -/
def firstAlertsOffset (logFirst : Page) (logRest : List Page) : Nat :=
  ((paginate 100 logFirst logRest 0).getLastD (logFirst, 0)).2

/-! ### Retrying fetcher

`PagerdutyStream._get` (streams.py:94-109) under its two `backoff`
decorators: the inner one retries `ConnectionError`/`Timeout`, the outer
one retries `HTTPError` unless `is_fatal_code` holds; both use
`backoff.fibo` delays (1, 1, 2, 3, 5, ...) and `max_time=120`.
`response.raise_for_status()` raises `HTTPError` exactly for statuses in
`[400, 600)`; other statuses return the parsed body. -/

/-- Outcome of one HTTP attempt as seen by `_get`: a network-level failure
(`requests` `ConnectionError`/`Timeout`) or a response with a status code
and an opaque parsed body. -/
inductive Outcome
  | netErr
  | http (status : Nat) (body : Nat)
deriving DecidableEq, Repr

/-- Embeds `is_fatal_code` (streams.py:14-18):
`400 <= e.response.status_code < 500 and e.response.status_code != 429`. -/
def is_fatal_code (status : Nat) : Bool :=
  decide (400 ≤ status) && decide (status < 500) && decide (status ≠ 429)

/-- What a call to the decorated `_get` produces: the parsed body, an
immediately surfaced client error, a network failure or transient HTTP
error re-raised after the backoff budget is exhausted, or an artifact value
for an exhausted attempt list (never reached in the theorems below). -/
inductive FetchResult
  | success (body : Nat)
  | clientError (status : Nat)
  | netGiveup
  | transientGiveup (status : Nat)
  | noResponse
deriving DecidableEq, Repr

/-- Modelled from the spec: the retry driver of the external `backoff`
library (not part of this repository), instantiated with the configuration
the source passes to it (streams.py:94-103) — Fibonacci delays, a
120-second wall-clock ceiling per call with the last sleep clipped to the
remaining budget, `giveup=is_fatal_code` on the `HTTPError` decorator.
`attempts` prescribes the successive transport outcomes; `ie, fa, fb` are
the inner (network-error) decorator's elapsed time and Fibonacci pair,
`oe, ga, gb` the outer (HTTP-error) decorator's.  The inner decorator's
state is reset on every outer retry, because the outer decorator re-enters
the inner-decorated function afresh.  The second component counts retries
(sleeps) across both decorators. -/
def getLoop : List Outcome → Nat → Nat → Nat → Nat → Nat → Nat → FetchResult × Nat
  | [], _, _, _, _, _, _ => (FetchResult.noResponse, 0)
  | Outcome.netErr :: rest, ie, fa, fb, oe, ga, gb =>
    if ie < 120 then
      let r := getLoop rest (ie + min fa (120 - ie)) fb (fa + fb) oe ga gb
      (r.1, r.2 + 1)
    else (FetchResult.netGiveup, 0)
  | Outcome.http s b :: rest, _, _, _, oe, ga, gb =>
    if s < 400 then (FetchResult.success b, 0)
    else if is_fatal_code s then (FetchResult.clientError s, 0)
    else if oe < 120 then
      let r := getLoop rest 0 1 1 (oe + min ga (120 - oe)) gb (ga + gb)
      (r.1, r.2 + 1)
    else (FetchResult.transientGiveup s, 0)

/-- One call to the decorated `_get`: both decorators start with zero
elapsed time and Fibonacci state `(1, 1)`. -/
def pagerdutyGet (attempts : List Outcome) : FetchResult × Nat :=
  getLoop attempts 0 1 1 0 1 1

/-! ### Stream construction

`PagerdutyStream.__init__` (streams.py:25-60): build the base params dict,
validate per-stream override keys against `valid_params`, merge the
overrides, then default or reject missing `required_params`.  The method
never calls `_get`; schema loading reads a local file. -/

/-- A query-parameter value as stored in the `self.params` dict: Python
`None`, an integer, or a string. -/
inductive ParamValue
  | vnone
  | vnat (n : Nat)
  | vstr (s : String)
deriving DecidableEq, Repr

/-- The params dict, as an insertion-ordered association list (Python dicts
preserve insertion order; `update` overwrites existing keys in place and
appends new ones). -/
abbrev Params := List (String × ParamValue)

/-- Key membership, `param in params.keys()`. -/
def hasKey (ps : Params) (k : String) : Bool :=
  (ps.map Prod.fst).contains k

/-- Python `dict` assignment `d[k] = v`: overwrite in place if the key
exists, append otherwise. -/
def upsertParam (ps : Params) (k : String) (v : ParamValue) : Params :=
  if hasKey ps k then ps.map (fun p => if p.1 = k then (k, v) else p)
  else ps ++ [(k, v)]

/-- Python `params.update(overrides)`. -/
def updateParams (ps : Params) (ov : Params) : Params :=
  ov.foldl (fun d p => upsertParam d p.1 p.2) ps

/-- The `for param in self.required_params` loop (streams.py:53-60): a
missing `until` is defaulted to the current timestamp, any other missing
required parameter raises. -/
def applyRequired (now : String) : List String → Params → Except String Params
  | [], ps => Except.ok ps
  | param :: rest, ps =>
    if hasKey ps param then applyRequired now rest ps
    else if param = "until" then
      applyRequired now rest (upsertParam ps "until" (ParamValue.vstr now))
    else
      Except.error ("Parameter " ++ param ++ " required but not supplied for endpoint.")

/-- The initial params dict (streams.py:30-35); `cfgLimit` is
`config.get('limit', 100)` and `cfgSince` is `config.get('since')`
(`vnone` when the config has no `since`; the key is present either way). -/
def baseParams (cfgLimit : Option ParamValue) (cfgSince : ParamValue) : Params :=
  [("limit", cfgLimit.getD (ParamValue.vnat 100)), ("offset", ParamValue.vnat 0),
   ("since", cfgSince), ("time_zone", ParamValue.vstr "UTC")]

/-- Embeds the params logic of `PagerdutyStream.__init__`
(streams.py:30-60): override keys are validated against `valid_params`
(first invalid key raises), valid overrides are merged, then required
parameters are defaulted or rejected. -/
def initStreamParams (validParams requiredParams : List String)
    (cfgLimit : Option ParamValue) (cfgSince : ParamValue)
    (overrides : Option Params) (now : String) : Except String Params :=
  let base := baseParams cfgLimit cfgSince
  match overrides with
  | none => applyRequired now requiredParams base
  | some ov =>
    match ov.find? (fun p => !(validParams.contains p.1)) with
    | some p => Except.error ("endpoint does not support " ++ p.1 ++ " parameter.")
    | none => applyRequired now requiredParams (updateParams base ov)

/-- HTTP requests issued during `PagerdutyStream.__init__`: none — the
method touches only the config and a local schema file, and every code
path of the embedding above is `_get`-free, so construction-time
validation failures happen before any HTTP call. -/
def initStreamRequests (_validParams _requiredParams : List String)
    (_cfgLimit : Option ParamValue) (_cfgSince : ParamValue)
    (_overrides : Option Params) (_now : String) : List String := []

/-! ### On-call records

`OncallsStream.sync` per-record handling (streams.py:483-505): records
whose `start` field is falsy (absent, `None`, or empty) are skipped via
`continue` before anything else happens; otherwise the record's `id` is
synthesized as `record['schedule']['id'] + record['start'] + record['end']`
and the record goes through the usual bookmark filter, emission and
running-bookmark update. -/

/-- An on-call record, reduced to the fields the per-record code touches:
`record['schedule']['id']`, `record.get('start')` (`none` models an absent
key or a JSON `null`), and `record['end']`. -/
structure OncallRecord where
  scheduleId : String
  start : Option String
  endTime : String
deriving DecidableEq, Repr

/-- Python truthiness of `record.get('start')`: `None` (absent key or
`null`) and the empty string are falsy. -/
def falsyStr : Option String → Bool
  | none => true
  | some s => decide (s = "")

/-- The synthesized singer id, `record['schedule']['id'] + record['start']
+ record['end']` (streams.py:488-489). -/
def synthOncallId (r : OncallRecord) : String :=
  r.scheduleId ++ r.start.getD "" ++ r.endTime

/-- One iteration of the record loop of `OncallsStream.sync`
(streams.py:483-505).  `parse` stands for `dateutil.parser.parse` on the
raw `start` string; the state is the pair of the emitted `(id, key)` list
and the running bookmark. -/
def oncallStep (bookmark : Option Timestamp) (parse : String → Timestamp)
    (st : List (String × Timestamp) × Option Timestamp) (r : OncallRecord) :
    List (String × Timestamp) × Option Timestamp :=
  if falsyStr r.start then st
  else
    let key := parse (r.start.getD "")
    if bookmarkFilter bookmark key then
      (st.1 ++ [(synthOncallId r, key)], some (update_bookmark st.2 key))
    else st

/-- The record loop of `OncallsStream.sync` over one page of records. -/
def oncallSyncPage (bookmark : Option Timestamp) (parse : String → Timestamp)
    (st : List (String × Timestamp) × Option Timestamp) (records : List OncallRecord) :
    List (String × Timestamp) × Option Timestamp :=
  records.foldl (oncallStep bookmark parse) st

/-! ### Window-planner lemmas (claim C3) -/

/-- A loop whose guard is already false yields no windows, whatever the fuel. -/
theorem windowLoop_nil_of_le (fuel since til span : Nat) (h : til ≤ since) :
    windowLoop fuel since til span = [] := by
  cases fuel with
  | zero => rfl
  | succ n => simp [windowLoop, Nat.not_lt.mpr h]

/-- Coverage and absence of overlap in one statement: every instant of
`[since, til)` lies in exactly one generated window, and no instant outside
it lies in any. -/
theorem windowLoop_countP (span t : Nat) (hspan : 0 < span) :
    ∀ (fuel since til : Nat), til - since ≤ fuel →
      (windowLoop fuel since til span).countP (fun w => decide (w.1 ≤ t ∧ t < w.2)) =
        if since ≤ t ∧ t < til then 1 else 0 := by
  intro fuel
  induction fuel with
  | zero =>
    intro since til h
    simp only [windowLoop, List.countP_nil]
    rw [if_neg (by omega)]
  | succ n ih =>
    intro since til h
    by_cases hlt : since < til
    · have hrec := ih (since + span) til (by omega)
      simp only [windowLoop, if_pos hlt, List.countP_cons, hrec, decide_eq_true_eq]
      split_ifs <;> omega
    · simp only [windowLoop, if_neg hlt, List.countP_nil]
      rw [if_neg (by omega)]

/-- Consecutive windows are adjacent and their starts differ by exactly the
span: each window ends where the next one starts. -/
theorem windowLoop_chain (span : Nat) (hspan : 0 < span) :
    ∀ (fuel since til : Nat), til - since ≤ fuel →
      List.Chain' (fun w1 w2 => w2.1 = w1.1 + span ∧ w1.2 = w2.1)
        (windowLoop fuel since til span) := by
  intro fuel
  induction fuel with
  | zero => intro since til h; simp [windowLoop]
  | succ n ih =>
    intro since til h
    by_cases hlt : since < til
    · simp only [windowLoop, if_pos hlt]
      refine List.chain'_cons'.mpr ⟨?_, ih (since + span) til (by omega)⟩
      intro w2 hw2
      by_cases h2 : since + span < til
      · cases n with
        | zero => omega
        | succ m =>
          simp only [windowLoop, if_pos h2, List.head?_cons, Option.mem_def,
            Option.some.injEq] at hw2
          subst hw2
          exact ⟨rfl, by simp [Nat.min_eq_left (Nat.le_of_lt h2)]⟩
      · rw [windowLoop_nil_of_le _ _ _ _ (by omega)] at hw2
        simp at hw2
    · simp [windowLoop, hlt]

/-- Every generated window has the shape `[cursor, min (cursor + span) til)`:
full length `span` except possibly clipped at `til`. -/
theorem windowLoop_shape (span : Nat) :
    ∀ (fuel since til : Nat) (w : Nat × Nat), w ∈ windowLoop fuel since til span →
      w.2 = min (w.1 + span) til := by
  intro fuel
  induction fuel with
  | zero => intro since til w hw; simp [windowLoop] at hw
  | succ n ih =>
    intro since til w hw
    by_cases hlt : since < til
    · simp only [windowLoop, if_pos hlt, List.mem_cons] at hw
      rcases hw with rfl | hw
      · rfl
      · exact ih _ _ _ hw
    · simp [windowLoop, hlt] at hw

/-- C3: for `0 < span`, the window loop generates consecutive windows
`[cursor, min (cursor + span) til)` whose starts advance by exactly `span`
each step, covering `[since, til)` contiguously with no gaps or overlaps
(every instant in the range lies in exactly one window), with only the final
window possibly clipped short at `til`; when `since = til` it generates zero
windows. -/
theorem C3_window_plan (since til span t : Nat) (hspan : 0 < span) :
    ((windowPlan since til span).countP (fun w => decide (w.1 ≤ t ∧ t < w.2)) =
        if since ≤ t ∧ t < til then 1 else 0) ∧
      List.Chain' (fun w1 w2 => w2.1 = w1.1 + span ∧ w1.2 = w2.1) (windowPlan since til span) ∧
      (∀ w ∈ windowPlan since til span, w.2 = min (w.1 + span) til) ∧
      windowPlan since since span = [] := by
  refine ⟨windowLoop_countP span t hspan _ _ _ le_rfl,
          windowLoop_chain span hspan _ _ _ le_rfl,
          fun w hw => windowLoop_shape span _ _ _ w hw, ?_⟩
  rw [windowPlan, Nat.sub_self]
  rfl

/-! ### Sync-loop lemmas (claims C1, C2, C5) -/

/-- Folding page-by-page is folding over the concatenation of the pages. -/
theorem foldl_foldl_flatten {σ α : Type} (g : σ → α → σ) :
    ∀ (L : List (List α)) (st : σ),
      L.foldl (fun st page => page.foldl g st) st = L.flatten.foldl g st := by
  intro L
  induction L with
  | nil => intro st; rfl
  | cons p L ih =>
    intro st
    simp only [List.foldl_cons, List.flatten_cons, List.foldl_append, ih]

/-- The window/page/record triple loop of the sync is a single fold over
all fetched records in traversal order. -/
theorem sync_fold_eq {σ : Type} (g : σ → SyncRecord → σ)
    (pages : Nat × Nat → List (List SyncRecord)) :
    ∀ (ws : List (Nat × Nat)) (st : σ),
      ws.foldl (fun st w => (pages w).foldl (fun st page => page.foldl g st) st) st
        = ((ws.map (fun w => (pages w).flatten)).flatten).foldl g st := by
  intro ws
  induction ws with
  | nil => intro st; rfl
  | cons w ws ih =>
    intro st
    rw [List.foldl_cons, ih, foldl_foldl_flatten]
    rw [List.map_cons, List.flatten_cons, List.foldl_append]

/-- The record loop appends exactly the records passing the bookmark
filter, in order. -/
theorem emit_foldl_fst (bookmark : Option Timestamp) :
    ∀ (records : List SyncRecord) (l : List SyncRecord) (rb : Option Timestamp),
      (records.foldl (emitStep bookmark) (l, rb)).1
        = l ++ records.filter (fun r => bookmarkFilter bookmark r.key) := by
  intro records
  induction records with
  | nil => intro l rb; simp
  | cons r rest ih =>
    intro l rb
    rw [List.foldl_cons]
    by_cases h : bookmarkFilter bookmark r.key
    · simp only [emitStep, if_pos h, ih, List.filter_cons, h, if_true, List.append_assoc,
        List.singleton_append]
    · simp only [emitStep, if_neg h, ih, List.filter_cons, h, if_false]
      simp [h]

/-- The record loop folds the running bookmark over exactly the records
passing the bookmark filter, in order. -/
theorem emit_foldl_snd (bookmark : Option Timestamp) :
    ∀ (records : List SyncRecord) (l : List SyncRecord) (rb : Option Timestamp),
      (records.foldl (emitStep bookmark) (l, rb)).2
        = (records.filter (fun r => bookmarkFilter bookmark r.key)).foldl
            (fun b r => some (update_bookmark b r.key)) rb := by
  intro records
  induction records with
  | nil => intro l rb; simp
  | cons r rest ih =>
    intro l rb
    rw [List.foldl_cons]
    by_cases h : bookmarkFilter bookmark r.key
    · simp only [emitStep, if_pos h, ih, List.filter_cons, h, if_true, List.foldl_cons]
    · simp only [emitStep, if_neg h, ih, List.filter_cons, h, if_false]
      simp [h]

/-- The emitted records of an incremental sync are the fetched records that
pass the bookmark filter. -/
theorem incrementalSync_emitted (bookmark : Option Timestamp) (cfgSince cfgUntil span : Nat)
    (pages : Nat × Nat → List (List SyncRecord)) :
    (incrementalSync bookmark cfgSince cfgUntil span pages).emitted
      = (fetchedRecords bookmark cfgSince cfgUntil span pages).filter
          (fun r => bookmarkFilter bookmark r.key) := by
  simp only [incrementalSync, fetchedRecords, sync_fold_eq, emit_foldl_fst, List.nil_append]

/-- The final bookmark-write step of an incremental sync is determined by
folding the running bookmark over the emitted records. -/
theorem incrementalSync_writeStep (bookmark : Option Timestamp) (cfgSince cfgUntil span : Nat)
    (pages : Nat × Nat → List (List SyncRecord)) :
    (incrementalSync bookmark cfgSince cfgUntil span pages).writeStep
      = match ((fetchedRecords bookmark cfgSince cfgUntil span pages).filter
            (fun r => bookmarkFilter bookmark r.key)).foldl
            (fun b r => some (update_bookmark b r.key)) none with
        | some v => Except.ok v
        | none => Except.error () := by
  simp only [incrementalSync, fetchedRecords, sync_fold_eq, emit_foldl_snd]

/-- Folding `update_bookmark` from a present bookmark yields a present
bookmark bounding the start value and every folded key. -/
theorem runFold_some :
    ∀ (l : List SyncRecord) (v0 : Timestamp),
      ∃ v, l.foldl (fun b r => some (update_bookmark b r.key)) (some v0) = some v ∧
        v0 ≤ v ∧ ∀ r ∈ l, r.key ≤ v := by
  intro l
  induction l with
  | nil => intro v0; exact ⟨v0, rfl, le_rfl, by simp⟩
  | cons r rest ih =>
    intro v0
    obtain ⟨v, hv, hle, hall⟩ := ih (max v0 r.key)
    refine ⟨v, ?_, le_trans (le_max_left _ _) hle, ?_⟩
    · rw [List.foldl_cons]
      exact hv
    · intro x hx
      rcases List.mem_cons.mp hx with rfl | hx
      · exact le_trans (le_max_right _ _) hle
      · exact hall x hx

/-- A fold that adds one per element counts the elements. -/
theorem foldl_succ_count {α : Type} :
    ∀ (l : List α) (n : Nat), l.foldl (fun n _ => n + 1) n = n + l.length := by
  intro l
  induction l with
  | nil => intro n; simp
  | cons x rest ih =>
    intro n
    rw [List.foldl_cons, ih]
    simp
    omega

/-- A fold that never changes its accumulator returns it unchanged. -/
theorem foldl_const_id {α : Type} :
    ∀ (l : List α) (n : Nat), l.foldl (fun n _ => n) n = n := by
  intro l
  induction l with
  | nil => intro n; rfl
  | cons x rest ih => intro n; simp [ih]

/-- Counting loop iterations: a fold that adds one per element under a
fixed condition. -/
theorem foldl_count_const {α : Type} (c : Bool) (l : List α) (n : Nat) :
    l.foldl (fun n _ => if c then n + 1 else n) n = if c then n + l.length else n := by
  cases c with
  | true => simp [foldl_succ_count]
  | false => simp [foldl_const_id]

/-- A page sequence always yields at least one page: its first element is
the initial response itself, produced without a network call. -/
theorem paginate_ne_nil (limit : Nat) (p : Page) (rest : List Page) (off : Nat) :
    paginate limit p rest off ≠ [] := by
  cases rest with
  | nil => simp [paginate]
  | cons q qs =>
    cases h : p.more with
    | none => simp [paginate, h]
    | some b => cases b <;> simp [paginate, h]

/-- C1: in an incremental stream sync, a record fetched within some window
is emitted iff the watermark read at sync start is null or the record's
replication-key value is ≥ it (inclusive, so a record exactly at the
watermark is re-emitted); and an incident record receives at least one
`write_record` call under exactly the same condition, whatever its alerts
sub-pagination yields. -/
theorem C1_bookmark_filter (bookmark : Option Timestamp) (cfgSince cfgUntil span : Nat)
    (pages : Nat × Nat → List (List SyncRecord)) (r : SyncRecord)
    (key : Timestamp) (aFirst : Page) (aRest : List Page) :
    (r ∈ (incrementalSync bookmark cfgSince cfgUntil span pages).emitted ↔
      (r ∈ fetchedRecords bookmark cfgSince cfgUntil span pages ∧
        (bookmark = none ∨ ∃ w, bookmark = some w ∧ w ≤ r.key))) ∧
    (incidentRecordWrites bookmark key aFirst aRest ≠ 0 ↔
      (bookmark = none ∨ ∃ w, bookmark = some w ∧ w ≤ key)) := by
  have hfilter : ∀ k, bookmarkFilter bookmark k = true ↔
      (bookmark = none ∨ ∃ w, bookmark = some w ∧ w ≤ k) := by
    intro k
    cases bookmark with
    | none => simp [bookmarkFilter]
    | some w => simp [bookmarkFilter]
  constructor
  · rw [incrementalSync_emitted, List.mem_filter, hfilter]
  · have hcount : incidentRecordWrites bookmark key aFirst aRest
        = if bookmarkFilter bookmark key then (paginate 100 aFirst aRest 0).length else 0 := by
      simp only [incidentRecordWrites, foldl_count_const, Nat.zero_add]
    rw [hcount, ← hfilter key]
    by_cases h : bookmarkFilter bookmark key
    · have hlen : (paginate 100 aFirst aRest 0).length ≠ 0 :=
        fun hc => paginate_ne_nil 100 aFirst aRest 0 (List.length_eq_zero.mp hc)
      simp [h, hlen]
    · simp [h]

/-- C2: an incremental sync run that emits at least one record ends with a
bookmark write (no crash) whose value is ≥ the watermark read at run start
and ≥ the replication-key value of every record emitted during the run. -/
theorem C2_watermark_monotone (bookmark : Option Timestamp) (cfgSince cfgUntil span : Nat)
    (pages : Nat × Nat → List (List SyncRecord))
    (h : (incrementalSync bookmark cfgSince cfgUntil span pages).emitted ≠ []) :
    ∃ v, (incrementalSync bookmark cfgSince cfgUntil span pages).writeStep = Except.ok v ∧
      (∀ w, bookmark = some w → w ≤ v) ∧
      (∀ r ∈ (incrementalSync bookmark cfgSince cfgUntil span pages).emitted, r.key ≤ v) := by
  rw [incrementalSync_emitted] at h ⊢
  rw [incrementalSync_writeStep]
  rcases he : (fetchedRecords bookmark cfgSince cfgUntil span pages).filter
      (fun r => bookmarkFilter bookmark r.key) with _ | ⟨r0, rest⟩
  · exact absurd he h
  · obtain ⟨v, hv, hle, hall⟩ := runFold_some rest r0.key
    have hr0 : bookmarkFilter bookmark r0.key = true := by
      have : r0 ∈ (fetchedRecords bookmark cfgSince cfgUntil span pages).filter
          (fun r => bookmarkFilter bookmark r.key) := by rw [he]; exact List.mem_cons_self _ _
      exact (List.mem_filter.mp this).2
    refine ⟨v, ?_, ?_, ?_⟩
    · rw [he, List.foldl_cons]
      have h1 : (some (update_bookmark none r0.key)) = some r0.key := rfl
      rw [h1, hv]
    · intro w hw
      subst hw
      have : w ≤ r0.key := by simpa [bookmarkFilter] using hr0
      exact le_trans this hle
    · intro r hr
      rw [he] at hr
      rcases List.mem_cons.mp hr with rfl | hr
      · exact hle
      · exact hall r hr

/-- C2 witness: a concrete run with prior watermark 5 emitting one record
with key 6 writes back a bookmark value bounding both. -/
theorem C2_watermark_monotone_witness :
    (incrementalSync (some 5) 0 10 7 (fun _ => [[⟨6, 0⟩]])).emitted ≠ [] ∧
      ∃ v, (incrementalSync (some 5) 0 10 7 (fun _ => [[⟨6, 0⟩]])).writeStep = Except.ok v ∧
        (∀ w, (some 5 : Option Timestamp) = some w → w ≤ v) ∧
        (∀ r ∈ (incrementalSync (some 5) 0 10 7 (fun _ => [[⟨6, 0⟩]])).emitted, r.key ≤ v) :=
  ⟨by decide, C2_watermark_monotone (some 5) 0 10 7 (fun _ => [[⟨6, 0⟩]]) (by decide)⟩

/-- C5 (claim is right, code is wrong): an incremental run with the prior
watermark 5 present that fetches no qualifying record reaches the final
`running_bookmark_dtime.isoformat()` with `running_bookmark_dtime = None`
and raises (`Except.error ()`), instead of completing the write step
harmlessly as the claim requires. -/
theorem C5_zero_records_crash :
    (incrementalSync (some 5) 0 3 7 (fun _ => [])).writeStep = Except.error () ∧
      (incrementalSync (some 5) 0 3 7 (fun _ => [])).emitted = [] :=
  ⟨rfl, rfl⟩

/-- C3 witness: the spec's own example, `since = 0, until = 20, span = 7`
(days), instantiated at the instant 3. -/
theorem C3_window_plan_witness :
    0 < 7 ∧
      (((windowPlan 0 20 7).countP (fun w => decide (w.1 ≤ 3 ∧ 3 < w.2)) =
          if 0 ≤ 3 ∧ 3 < 20 then 1 else 0) ∧
        List.Chain' (fun w1 w2 => w2.1 = w1.1 + 7 ∧ w1.2 = w2.1) (windowPlan 0 20 7) ∧
        (∀ w ∈ windowPlan 0 20 7, w.2 = min (w.1 + 7) 20) ∧
        windowPlan 0 0 7 = []) :=
  ⟨by decide, C3_window_plan 0 20 7 3 (by decide)⟩

/-! ### Pagination lemmas (claims C7, C4, C10) -/

/-- Indexed characterization of the page sequence: while every page but the
last reports `more = true`, the i-th yielded element is the i-th network
page paired with offset `off + i * limit`. -/
theorem paginate_get? (limit : Nat) :
    ∀ (ps : List Page) (p : Page) (off i : Nat),
      (∀ j, j + 1 < (p :: ps).length → ∃ q, (p :: ps).get? j = some q ∧ q.more = some true) →
      (paginate limit p ps off).get? i = ((p :: ps).get? i).map (fun q => (q, off + i * limit)) := by
  intro ps
  induction ps with
  | nil =>
    intro p off i h
    cases i with
    | zero => simp [paginate]
    | succ n => simp [paginate]
  | cons q qs ih =>
    intro p off i h
    have hp : p.more = some true := by
      obtain ⟨q', hq', hm⟩ := h 0 (by simp)
      rw [List.get?_cons_zero] at hq'
      injection hq' with h2
      subst h2
      exact hm
    cases i with
    | zero => simp [paginate, hp]
    | succ n =>
      simp only [paginate, hp, List.get?_cons_succ]
      rw [ih q (off + limit) n ?_]
      · cases hget : (q :: qs).get? n with
        | none => simp
        | some r =>
          simp only [Option.map_some']
          have : off + limit + n * limit = off + (n + 1) * limit := by ring
          rw [this]
      · intro j hj
        obtain ⟨q', hq', hm⟩ := h (j + 1) (by simpa using Nat.succ_lt_succ hj)
        exact ⟨q', by simpa using hq', hm⟩

/-- Under the same condition the page sequence has exactly one element per
network page. -/
theorem paginate_length (limit : Nat) :
    ∀ (ps : List Page) (p : Page) (off : Nat),
      (∀ j, j + 1 < (p :: ps).length → ∃ q, (p :: ps).get? j = some q ∧ q.more = some true) →
      (paginate limit p ps off).length = ps.length + 1 := by
  intro ps
  induction ps with
  | nil => intro p off h; simp [paginate]
  | cons q qs ih =>
    intro p off h
    have hp : p.more = some true := by
      obtain ⟨q', hq', hm⟩ := h 0 (by simp)
      rw [List.get?_cons_zero] at hq'
      injection hq' with h2
      subst h2
      exact hm
    simp only [paginate, hp, List.length_cons]
    rw [ih q (off + limit) ?_]
    intro j hj
    obtain ⟨q', hq', hm⟩ := h (j + 1) (by simpa using Nat.succ_lt_succ hj)
    exact ⟨q', by simpa using hq', hm⟩

/-- The offset left in the shared params dict when a pagination ends is the
offset of its last fetched page: `off + (number of pages - 1) * limit`. -/
theorem paginate_getLastD (limit : Nat) :
    ∀ (ps : List Page) (p : Page) (off : Nat) (d : Page × Nat),
      (∀ j, j + 1 < (p :: ps).length → ∃ q, (p :: ps).get? j = some q ∧ q.more = some true) →
      ((paginate limit p ps off).getLastD d).2 = off + ps.length * limit := by
  intro ps
  induction ps with
  | nil => intro p off d h; simp [paginate]
  | cons q qs ih =>
    intro p off d h
    have hp : p.more = some true := by
      obtain ⟨q', hq', hm⟩ := h 0 (by simp)
      rw [List.get?_cons_zero] at hq'
      injection hq' with h2
      subst h2
      exact hm
    simp only [paginate, hp, List.getLastD_cons]
    rw [ih q (off + limit) (p, off) ?_]
    · have : off + limit + qs.length * limit = off + (qs.length + 1) * limit := by ring
      rw [this]
      simp
    · intro j hj
      obtain ⟨q', hq', hm⟩ := h (j + 1) (by simpa using Nat.succ_lt_succ hj)
      exact ⟨q', by simpa using hq', hm⟩

/-- The first element of any page sequence is the initial response itself,
at the offset the initial request used. -/
theorem paginate_head? (limit : Nat) (p : Page) (rest : List Page) (off : Nat) :
    (paginate limit p rest off).head? = some (p, off) := by
  cases rest with
  | nil => simp [paginate]
  | cons q qs => simp [paginate]

/-- A page whose `more` flag is false or absent ends the sequence
immediately: only the initial page is yielded. -/
theorem paginate_stop (limit : Nat) (p : Page) (rest : List Page) (off : Nat)
    (h : p.more ≠ some true) :
    paginate limit p rest off = [(p, off)] := by
  cases rest with
  | nil => simp [paginate]
  | cons q qs =>
    cases hm : p.more with
    | none => simp [paginate, hm]
    | some b =>
      cases b with
      | false => simp [paginate, hm]
      | true => exact absurd hm h

/-- C7: the page sequence yields the initial page first (no network call);
it ends when a page's `more` flag is false or absent; and for N pages whose
first N-1 have `more` true and whose last has `more` false, iterating
yields exactly N pages, the i-th fetched at offset `i * limit` (counting
from 0: offsets `0, limit, 2*limit, ...`). -/
theorem C7_pagination (limit : Nat) (p : Page) (ps : List Page) (i off : Nat)
    (q0 : Page) (qs0 : List Page)
    (h1 : ∀ j, j + 1 < (p :: ps).length →
      ∃ q, (p :: ps).get? j = some q ∧ q.more = some true)
    (h2 : ∃ q, (p :: ps).getLast? = some q ∧ q.more = some false)
    (h3 : q0.more ≠ some true) :
    ((paginate limit p ps 0).get? i = ((p :: ps).get? i).map (fun q => (q, i * limit))) ∧
      (paginate limit p ps 0).length = (p :: ps).length ∧
      (paginate limit p ps 0).head? = some (p, 0) ∧
      paginate limit q0 qs0 off = [(q0, off)] := by
  refine ⟨?_, ?_, paginate_head? limit p ps 0, paginate_stop limit q0 qs0 off h3⟩
  · have := paginate_get? limit ps p 0 i h1
    simpa using this
  · rw [paginate_length limit ps p 0 h1, List.length_cons]

/-- C7 witness: two pages (`more = true` then `more = false`) at limit 100,
inspected at index 1, plus a `more = false` page that stops immediately at
offset 5. -/
theorem C7_pagination_witness :
    ((paginate 100 ⟨some true, [1]⟩ [⟨some false, [2]⟩] 0).get? 1 =
        (([⟨some true, [1]⟩, ⟨some false, [2]⟩] : List Page).get? 1).map
          (fun q => (q, 1 * 100))) ∧
      (paginate 100 ⟨some true, [1]⟩ [⟨some false, [2]⟩] 0).length =
        ([⟨some true, [1]⟩, ⟨some false, [2]⟩] : List Page).length ∧
      (paginate 100 ⟨some true, [1]⟩ [⟨some false, [2]⟩] 0).head? =
        some (⟨some true, [1]⟩, 0) ∧
      paginate 100 ⟨some false, [3]⟩ [⟨some true, []⟩] 5 = [(⟨some false, [3]⟩, 5)] :=
  C7_pagination 100 ⟨some true, [1]⟩ [⟨some false, [2]⟩] 1 5 ⟨some false, [3]⟩ [⟨some true, []⟩]
    (fun j hj => by
      simp only [List.length_cons, List.length_nil] at hj
      have hj0 : j = 0 := by omega
      subst hj0
      exact ⟨⟨some true, [1]⟩, rfl, rfl⟩)
    ⟨⟨some false, [2]⟩, rfl, rfl⟩
    (by decide)

/-- C4 (claim is right, code is wrong): the filter/transform/`write_record`
block of `IncidentsStream.sync` (streams.py:226-234) is indented inside the
alerts page loop, so a record passing the bookmark filter whose alerts
sub-pagination yields two pages receives two `write_record` calls — not
exactly one as the claim (and the spec's "no record is emitted twice within
one run by construction") requires.  A single-page alerts pagination does
produce exactly one call. -/
theorem C4_incident_double_write :
    incidentRecordWrites none 0 { more := some true, items := [] }
        [{ more := some false, items := [] }] = 2 ∧
      incidentRecordWrites none 0 { more := some false, items := [] } [] = 1 := by
  decide

/-- C10: the `log_entries` and `alerts` sub-paginations of one incident
record share the single mutable `substream_params` dict, so after a
k-page `log_entries` pagination the first `alerts` request is issued at
the leftover offset `(k-1)*100`, which is 0 only when the log entries fit
in one page. -/
theorem C10_shared_substream_params (logFirst : Page) (logRest : List Page)
    (h1 : ∀ j, j + 1 < (logFirst :: logRest).length →
      ∃ q, (logFirst :: logRest).get? j = some q ∧ q.more = some true)
    (h2 : ∃ q, (logFirst :: logRest).getLast? = some q ∧ q.more = some false) :
    firstAlertsOffset logFirst logRest = ((logFirst :: logRest).length - 1) * 100 ∧
      (firstAlertsOffset logFirst logRest = 0 ↔ (logFirst :: logRest).length = 1) := by
  have hlast := paginate_getLastD 100 logRest logFirst 0 (logFirst, 0) h1
  have hoff : firstAlertsOffset logFirst logRest = logRest.length * 100 := by
    rw [firstAlertsOffset, hlast]
    simp
  constructor
  · rw [hoff, List.length_cons]
    simp
  · rw [hoff, List.length_cons]
    omega

/-- C10 witness: a two-page `log_entries` pagination leaves offset 100 in
the shared params dict for the first alerts request. -/
theorem C10_shared_substream_params_witness :
    firstAlertsOffset ⟨some true, [1]⟩ [⟨some false, [2]⟩] =
        ((⟨some true, [1]⟩ :: [⟨some false, [2]⟩] : List Page).length - 1) * 100 ∧
      (firstAlertsOffset ⟨some true, [1]⟩ [⟨some false, [2]⟩] = 0 ↔
        ((⟨some true, [1]⟩ :: [⟨some false, [2]⟩] : List Page)).length = 1) :=
  C10_shared_substream_params ⟨some true, [1]⟩ [⟨some false, [2]⟩]
    (fun j hj => by
      simp only [List.length_cons, List.length_nil] at hj
      have hj0 : j = 0 := by omega
      subst hj0
      exact ⟨⟨some true, [1]⟩, rfl, rfl⟩)
    ⟨⟨some false, [2]⟩, rfl, rfl⟩

/-! ### Fetcher lemmas (claim C6) -/

/-- C6: the fetcher classifies every HTTP status in `[400, 500)` other than
429 as fatal and surfaces it immediately with zero retries; a 2xx response
returns the parsed body with zero retries; a network-level failure and a
transient HTTP error (429 or ≥ 500) are each retried with the next
Fibonacci delay (clipped to the remaining budget) while their decorator's
elapsed time is below the 120-second ceiling, and give up once it is not;
and two transient failures followed by a success produce the success after
exactly two retries. -/
theorem C6_fetch_classification
    (s1 s2 s3 b ie oe ie2 oe2 fa fb ga gb : Nat) (rest : List Outcome)
    (h1a : 400 ≤ s1) (h1b : s1 < 500) (h1c : s1 ≠ 429)
    (h2a : 200 ≤ s2) (h2b : s2 < 300)
    (h3 : s3 = 429 ∨ 500 ≤ s3)
    (hie : ie < 120) (hoe : oe < 120) (hie2 : 120 ≤ ie2) (hoe2 : 120 ≤ oe2) :
    (∀ s, is_fatal_code s = true ↔ (400 ≤ s ∧ s < 500 ∧ s ≠ 429)) ∧
      pagerdutyGet (Outcome.http s1 b :: rest) = (FetchResult.clientError s1, 0) ∧
      pagerdutyGet (Outcome.http s2 b :: rest) = (FetchResult.success b, 0) ∧
      getLoop (Outcome.netErr :: rest) ie fa fb oe ga gb =
        ((getLoop rest (ie + min fa (120 - ie)) fb (fa + fb) oe ga gb).1,
          (getLoop rest (ie + min fa (120 - ie)) fb (fa + fb) oe ga gb).2 + 1) ∧
      getLoop (Outcome.netErr :: rest) ie2 fa fb oe ga gb = (FetchResult.netGiveup, 0) ∧
      getLoop (Outcome.http s3 b :: rest) ie fa fb oe ga gb =
        ((getLoop rest 0 1 1 (oe + min ga (120 - oe)) gb (ga + gb)).1,
          (getLoop rest 0 1 1 (oe + min ga (120 - oe)) gb (ga + gb)).2 + 1) ∧
      getLoop (Outcome.http s3 b :: rest) ie fa fb oe2 ga gb =
        (FetchResult.transientGiveup s3, 0) ∧
      pagerdutyGet [Outcome.http 500 0, Outcome.http 503 1, Outcome.http 200 7] =
        (FetchResult.success 7, 2) := by
  have hfc : ∀ s, is_fatal_code s = true ↔ (400 ≤ s ∧ s < 500 ∧ s ≠ 429) := by
    intro s
    simp [is_fatal_code, and_assoc]
  refine ⟨hfc, ?_, ?_, ?_, ?_, ?_, ?_, ?_⟩
  · have hns : ¬ s1 < 400 := by omega
    have hf : is_fatal_code s1 = true := (hfc s1).mpr ⟨h1a, h1b, h1c⟩
    simp only [pagerdutyGet, getLoop, if_neg hns, if_pos hf]
  · have hs : s2 < 400 := by omega
    simp only [pagerdutyGet, getLoop, if_pos hs]
  · simp only [getLoop, if_pos hie]
  · have hn : ¬ ie2 < 120 := by omega
    simp only [getLoop, if_neg hn]
  · have hns : ¬ s3 < 400 := by omega
    have hnf : ¬ is_fatal_code s3 = true := by
      rw [hfc s3]
      omega
    simp only [getLoop, if_neg hns, if_neg hnf, if_pos hoe]
  · have hns : ¬ s3 < 400 := by omega
    have hnf : ¬ is_fatal_code s3 = true := by
      rw [hfc s3]
      omega
    have hn : ¬ oe2 < 120 := by omega
    simp only [getLoop, if_neg hns, if_neg hnf, if_neg hn]
  · decide

/-- C6 witness: a 404 (fatal), a 200 (success), a 429 (transient), fresh
and exhausted budgets. -/
theorem C6_fetch_classification_witness :
    (∀ s, is_fatal_code s = true ↔ (400 ≤ s ∧ s < 500 ∧ s ≠ 429)) ∧
      pagerdutyGet (Outcome.http 404 1 :: []) = (FetchResult.clientError 404, 0) ∧
      pagerdutyGet (Outcome.http 200 1 :: []) = (FetchResult.success 1, 0) ∧
      getLoop (Outcome.netErr :: []) 0 1 1 0 1 1 =
        ((getLoop [] (0 + min 1 (120 - 0)) 1 (1 + 1) 0 1 1).1,
          (getLoop [] (0 + min 1 (120 - 0)) 1 (1 + 1) 0 1 1).2 + 1) ∧
      getLoop (Outcome.netErr :: []) 120 1 1 0 1 1 = (FetchResult.netGiveup, 0) ∧
      getLoop (Outcome.http 429 1 :: []) 0 1 1 0 1 1 =
        ((getLoop [] 0 1 1 (0 + min 1 (120 - 0)) 1 (1 + 1)).1,
          (getLoop [] 0 1 1 (0 + min 1 (120 - 0)) 1 (1 + 1)).2 + 1) ∧
      getLoop (Outcome.http 429 1 :: []) 0 1 1 120 1 1 =
        (FetchResult.transientGiveup 429, 0) ∧
      pagerdutyGet [Outcome.http 500 0, Outcome.http 503 1, Outcome.http 200 7] =
        (FetchResult.success 7, 2) :=
  C6_fetch_classification 404 200 429 1 0 0 120 120 1 1 1 1 []
    (by decide) (by decide) (by decide) (by decide) (by decide) (Or.inl rfl)
    (by decide) (by decide) (by decide) (by decide)

/-! ### Stream-construction lemmas (claim C8) -/

/-- Appending a fresh key to a params dict makes it retrievable. -/
theorem lookup_append_self (v : ParamValue) :
    ∀ (ps : Params) (k : String), hasKey ps k = false →
      List.lookup k (ps ++ [(k, v)]) = some v := by
  intro ps
  induction ps with
  | nil => intro k h; simp [List.lookup]
  | cons a ps ih =>
    intro k h
    simp only [hasKey, List.map_cons, List.contains_cons, Bool.or_eq_false_iff,
      beq_eq_false_iff_ne] at h
    obtain ⟨hne, hrest⟩ := h
    simp only [List.cons_append, List.lookup]
    rw [show (k == a.1) = false from beq_eq_false_iff_ne.mpr hne]
    exact ih k hrest

/-- C8: a per-stream override containing a parameter name outside the
stream's accepted set makes construction fail (with zero HTTP calls
issued); a required parameter absent after overrides is defaulted to the
current timestamp if it is `until` (and is then present with that value),
and otherwise causes a fatal configuration error. -/
theorem C8_config_validation
    (validParams requiredParams : List String)
    (cfgLimit : Option ParamValue) (cfgSince : ParamValue)
    (ov : Params) (now : String)
    (ps : Params) (rest : List String)
    (ps2 : Params) (param : String) (rest2 : List String)
    (hbad : ∃ p ∈ ov, validParams.contains p.1 = false)
    (huntil : hasKey ps "until" = false)
    (hmiss : hasKey ps2 param = false) (hparam : param ≠ "until") :
    (∃ msg, initStreamParams validParams requiredParams cfgLimit cfgSince (some ov) now
        = Except.error msg) ∧
      initStreamRequests validParams requiredParams cfgLimit cfgSince (some ov) now = [] ∧
      applyRequired now ("until" :: rest) ps
        = applyRequired now rest (upsertParam ps "until" (ParamValue.vstr now)) ∧
      (upsertParam ps "until" (ParamValue.vstr now)).lookup "until"
        = some (ParamValue.vstr now) ∧
      ∃ msg, applyRequired now (param :: rest2) ps2 = Except.error msg := by
  refine ⟨?_, rfl, ?_, ?_, ?_⟩
  · obtain ⟨p0, hmem, hp0⟩ := hbad
    cases hfind : ov.find? (fun p => !(validParams.contains p.1)) with
    | none =>
      exfalso
      have hall := List.find?_eq_none.mp hfind p0 hmem
      simp at hall hp0
      exact hp0 hall
    | some p1 =>
      refine ⟨"endpoint does not support " ++ p1.1 ++ " parameter.", ?_⟩
      simp only [initStreamParams]
      rw [hfind]
  · simp [applyRequired, huntil]
  · rw [upsertParam, if_neg (by simp [huntil])]
    exact lookup_append_self (ParamValue.vstr now) ps "until" huntil
  · refine ⟨"Parameter " ++ param ++ " required but not supplied for endpoint.", ?_⟩
    simp [applyRequired, hmiss, hparam]

/-- C8 witness: an override with the unknown key `bogus` against accepted
set `[since]`; the base params dict (which never contains `until`); and a
missing required parameter `email`. -/
theorem C8_config_validation_witness :
    (∃ msg, initStreamParams ["since"] ["since", "until"] none ParamValue.vnone
        (some [("bogus", ParamValue.vnat 1)]) "NOW" = Except.error msg) ∧
      initStreamRequests ["since"] ["since", "until"] none ParamValue.vnone
        (some [("bogus", ParamValue.vnat 1)]) "NOW" = [] ∧
      applyRequired "NOW" ("until" :: []) (baseParams none ParamValue.vnone)
        = applyRequired "NOW" []
            (upsertParam (baseParams none ParamValue.vnone) "until" (ParamValue.vstr "NOW")) ∧
      (upsertParam (baseParams none ParamValue.vnone) "until"
          (ParamValue.vstr "NOW")).lookup "until" = some (ParamValue.vstr "NOW") ∧
      ∃ msg, applyRequired "NOW" ("email" :: []) [] = Except.error msg :=
  C8_config_validation ["since"] ["since", "until"] none ParamValue.vnone
    [("bogus", ParamValue.vnat 1)] "NOW" (baseParams none ParamValue.vnone) []
    [] "email" []
    ⟨("bogus", ParamValue.vnat 1), by decide, by decide⟩
    (by decide) (by decide) (by decide)

/-! ### On-call lemmas (claim C9) -/

/-- The on-call record loop appends exactly the synthesized-id/key pairs of
the records with truthy `start` that pass the bookmark filter. -/
theorem oncall_foldl_fst (bookmark : Option Timestamp) (parse : String → Timestamp) :
    ∀ (records : List OncallRecord) (l : List (String × Timestamp)) (rb : Option Timestamp),
      (records.foldl (oncallStep bookmark parse) (l, rb)).1
        = l ++ (records.filter (fun r => !falsyStr r.start &&
            bookmarkFilter bookmark (parse (r.start.getD "")))).map
            (fun r => (synthOncallId r, parse (r.start.getD ""))) := by
  intro records
  induction records with
  | nil => intro l rb; simp
  | cons r rest ih =>
    intro l rb
    rw [List.foldl_cons]
    by_cases hf : falsyStr r.start
    · have hc : (!falsyStr r.start &&
          bookmarkFilter bookmark (parse (r.start.getD ""))) = false := by simp [hf]
      simp only [oncallStep, if_pos hf, ih, List.filter_cons, hc]
      simp
    · by_cases hb : bookmarkFilter bookmark (parse (r.start.getD ""))
      · have hc : (!falsyStr r.start &&
            bookmarkFilter bookmark (parse (r.start.getD ""))) = true := by
          simp [hf, hb]
        simp only [oncallStep, if_neg hf, if_pos hb, ih, List.filter_cons, hc]
        simp [List.append_assoc]
      · have hc : (!falsyStr r.start &&
            bookmarkFilter bookmark (parse (r.start.getD ""))) = false := by
          simp [hf, hb]
        simp only [oncallStep, if_neg hf, if_neg hb, ih, List.filter_cons, hc]
        simp

/-- The on-call record loop folds the running bookmark over exactly the
same records. -/
theorem oncall_foldl_snd (bookmark : Option Timestamp) (parse : String → Timestamp) :
    ∀ (records : List OncallRecord) (l : List (String × Timestamp)) (rb : Option Timestamp),
      (records.foldl (oncallStep bookmark parse) (l, rb)).2
        = (records.filter (fun r => !falsyStr r.start &&
            bookmarkFilter bookmark (parse (r.start.getD "")))).foldl
            (fun b r => some (update_bookmark b (parse (r.start.getD "")))) rb := by
  intro records
  induction records with
  | nil => intro l rb; simp
  | cons r rest ih =>
    intro l rb
    rw [List.foldl_cons]
    by_cases hf : falsyStr r.start
    · have hc : (!falsyStr r.start &&
          bookmarkFilter bookmark (parse (r.start.getD ""))) = false := by simp [hf]
      simp only [oncallStep, if_pos hf, ih, List.filter_cons, hc]
      simp
    · by_cases hb : bookmarkFilter bookmark (parse (r.start.getD ""))
      · have hc : (!falsyStr r.start &&
            bookmarkFilter bookmark (parse (r.start.getD ""))) = true := by
          simp [hf, hb]
        simp only [oncallStep, if_neg hf, if_pos hb, ih, List.filter_cons, hc]
        simp [List.foldl_cons]
      · have hc : (!falsyStr r.start &&
            bookmarkFilter bookmark (parse (r.start.getD ""))) = false := by
          simp [hf, hb]
        simp only [oncallStep, if_neg hf, if_neg hb, ih, List.filter_cons, hc]
        simp

/-- C9 counterexample: an on-call record whose `start` field is present but
empty (`some ""`, which is falsy in Python) is skipped entirely — no
emission and no bookmark update even under a null watermark — although its
replication-key field is not absent; the claim as stated predicts this
record would be processed and emitted. -/
theorem C9_empty_start_counterexample :
    (oncallStep none (fun _ => 0) ([], none)
        { scheduleId := "SCHED", start := some "", endTime := "END" }).1 = [] ∧
      (oncallStep none (fun _ => 0) ([], none)
        { scheduleId := "SCHED", start := some "", endTime := "END" }).2 = none ∧
      ({ scheduleId := "SCHED", start := some "", endTime := "END" } : OncallRecord).start
        ≠ none := by
  decide

/-- C9 (amended): the on-call sync skips a record entirely — no emission,
no bookmark update — exactly when its replication-key field `start` is
falsy (absent or empty), and every other record is emitted, when it passes
the bookmark filter, with its id synthesized as
`scheduleId ++ startTimestamp ++ endTimestamp` before filtering and
emission. -/
theorem C9_oncall_processing (bookmark : Option Timestamp) (parse : String → Timestamp)
    (records : List OncallRecord) (st : List (String × Timestamp) × Option Timestamp) :
    (oncallSyncPage bookmark parse st records).1
      = st.1 ++ (records.filter (fun r => !falsyStr r.start &&
          bookmarkFilter bookmark (parse (r.start.getD "")))).map
          (fun r => (synthOncallId r, parse (r.start.getD ""))) ∧
      (oncallSyncPage bookmark parse st records).2
        = (records.filter (fun r => !falsyStr r.start &&
            bookmarkFilter bookmark (parse (r.start.getD "")))).foldl
            (fun b r => some (update_bookmark b (parse (r.start.getD "")))) st.2 := by
  cases st with
  | mk l rb => exact ⟨oncall_foldl_fst bookmark parse records l rb,
      oncall_foldl_snd bookmark parse records l rb⟩
